import Mathlib

/-!
Verification of the streaming-answer / speech-playback core of the
Darul Ifta assistant web app.

The definitions below are a shallow embedding of the TypeScript source:

* `src/services/geminiService.ts` — error classification
  (`isQuotaError`, `isKeyError`), the catch-clause of
  `GeminiService.sendMessageStream`, the per-stream URI deduplication
  (`seenUris`), and `generateSpeech`.
* `src/unnamed/part_001` — the variant of `GeminiService.sendMessageStream`
  that carries the `while (retries <= maxRetries)` retry loop.
* `src/unnamed/part_000` (`ChatMessage`) — `splitContent`, `stopAudio`,
  and the `handlePlay` sentence splitter and audio-scheduling loop.
* `src/App.tsx` — the chunk-consumption loop of `handleSend`
  (content accumulation and source-list accumulation).

JavaScript strings are modelled as Lean `String` / `List Char`;
machine floating-point times and durations of the Web-Audio scheduler are
modelled as rationals (the scheduling algebra uses only `max` and `+`);
JavaScript `undefined` is modelled with `Option`; a thrown exception is
modelled as the `Except.error` case or, where the source catches it
locally, by the catching function's total result.
-/

namespace DarulIfta

/-! ## JavaScript string primitives -/

/-- Substring test: JS `String.prototype.includes`. -/
def containsSub (needle haystack : List Char) : Bool :=
  haystack.tails.any (fun t => needle.isPrefixOf t)

/-- JS `String.prototype.toLowerCase` (ASCII case mapping, which covers
every marker string the classifiers test for). -/
def jsToLower (s : String) : String :=
  String.mk (s.data.map Char.toLower)

/-- Core of the JS whitespace class `\s` (and of `trim`): space, tab,
line feed, carriage return, vertical tab, form feed, NBSP, BOM. -/
def isJsWs (c : Char) : Bool :=
  c = ' ' || c = '\t' || c = '\n' || c = '\r' || c = '\u000b' ||
  c = '\u000c' || c = ' ' || c = '﻿'

/-- JS `String.prototype.trim`: strip whitespace from both ends. -/
def jsTrim (l : List Char) : List Char :=
  ((l.dropWhile isJsWs).reverse.dropWhile isJsWs).reverse

/-- JS `String.prototype.split` with a non-empty string separator:
non-overlapping occurrences, scanned left to right.  The `fuel`
argument only drives structural recursion; every step consumes at
least one character, so `fuel = l.length` (as supplied by `splitOnL`)
never runs out before the scan finishes. -/
def splitOnAuxL (sep : List Char) : Nat → List Char → List Char → List (List Char)
  | _, [], acc => [acc.reverse]
  | 0, l, acc => [acc.reverse ++ l]
  | fuel + 1, c :: rest, acc =>
    if sep.isPrefixOf (c :: rest) then
      acc.reverse :: splitOnAuxL sep fuel (rest.drop (sep.length - 1)) []
    else
      splitOnAuxL sep fuel rest (c :: acc)

/-- JS `haystack.split(sep)` for a non-empty string `sep`. -/
def splitOnL (sep l : List Char) : List (List Char) :=
  splitOnAuxL sep l.length l []

/-! ## Error classification and the two stream executors

`src/services/geminiService.ts` lines 30–38 and 115–124, and the retrying
variant in `src/unnamed/part_001` lines 30–33 and 54–131. -/

/-- `isQuotaError` from `src/services/geminiService.ts`:
`String(error).toLowerCase()` contains a quota marker. -/
def isQuotaError (e : String) : Bool :=
  let s := jsToLower e
  containsSub "429".data s.data ||
  containsSub "resource_exhausted".data s.data ||
  containsSub "quota".data s.data

/-- `isKeyError` from `src/services/geminiService.ts`:
`String(error).toLowerCase()` contains an auth marker. -/
def isKeyError (e : String) : Bool :=
  let s := jsToLower e
  containsSub "401".data s.data ||
  containsSub "unauthorized".data s.data ||
  containsSub "invalid_api_key".data s.data ||
  containsSub "api key not found".data s.data

/-- The catch clause of `sendMessageStream` in
`src/services/geminiService.ts` (lines 115–124): the quota test runs
first, then the key test, otherwise the original error is rethrown. -/
def classifyCatch (e : String) : String :=
  if isQuotaError e then "QUOTA_EXHAUSTED"
  else if isKeyError e then "INVALID_KEY"
  else e

/-- A `Source` as in `src/types.ts`. -/
structure Source where
  title : String
  uri : String
deriving DecidableEq

/-- One element of `groundingMetadata.groundingChunks`: `web?.title` and
`web?.uri`, each possibly absent.  A present-but-empty string is falsy
in the JS guards, so it is modelled as `none`. -/
structure WebRef where
  title : Option String
  uri : Option String
deriving DecidableEq

/-- One raw chunk of the remote generation stream: an optional text delta
plus the grounding references attached to the chunk. -/
structure GChunk where
  text : Option String
  refs : List WebRef
deriving DecidableEq

/-- One yielded `StreamOutput` (`src/services/geminiService.ts`
lines 40–43). -/
structure StreamOutput where
  text : Option String
  sources : Option (List Source)
deriving DecidableEq

/-- The remote `generateContentStream` call either delivers a full chunk
sequence or throws, with the thrown error modelled by its string form. -/
inductive CallResult where
  | ok (chunks : List GChunk)
  | err (e : String)

/-- `let retries = 0; const maxRetries = 1;` in
`src/services/geminiService.ts` lines 62–63.  Both bindings are dead:
no retry loop reads them anywhere in that file. -/
def maxRetriesV1 : Nat := 1

/-- The executor of `src/services/geminiService.ts`
`sendMessageStream` (lines 65–124) reduced to its control flow: the one
remote call is issued inside a single `try`; on failure the catch
clause classifies and rethrows.  There is no loop, so the second
component — the number of remote attempts issued — is always `1`. -/
def sendMessageStreamV1 (call : CallResult) : Except String (List GChunk) × Nat :=
  match call with
  | .ok cs => (.ok cs, 1)
  | .err e => (.error (classifyCatch e), 1)

/-- `const maxRetries = 2;` in `src/unnamed/part_001` line 55. -/
def maxRetriesV2 : Nat := 2

/-- `isQuotaError` from `src/unnamed/part_001`:
`JSON.stringify(error).toLowerCase()` contains a quota marker.
Stringification wraps the error text in quotes, which cannot affect
these three marker tests, so the error's own text is scanned. -/
def isQuotaErrorV2 (e : String) : Bool :=
  let s := jsToLower e
  containsSub "429".data s.data ||
  containsSub "resource_exhausted".data s.data ||
  containsSub "quota".data s.data

/-- The `while (retries <= maxRetries)` executor of
`src/unnamed/part_001` `sendMessageStream` (lines 57–131), entered at
attempt number `retries`: a fresh remote call per attempt; on a
quota-classified error with `retries < maxRetries` the loop sleeps
`1500 * retries` ms and retries, otherwise the error is rethrown
unchanged.  The second component counts remote attempts issued. -/
def runV2From (factory : Nat → CallResult) (retries : Nat) :
    Except String (List GChunk) × Nat :=
  match factory retries with
  | .ok cs => (.ok cs, retries + 1)
  | .err e =>
    if isQuotaErrorV2 e && decide (retries < maxRetriesV2) then
      runV2From factory (retries + 1)
    else (.error e, retries + 1)
  termination_by maxRetriesV2 - retries
  decreasing_by
    simp_wf
    rename_i h
    simp at h
    omega

/-- `sendMessageStream` of `src/unnamed/part_001`: the retry loop is
entered with `retries = 0`. -/
def sendMessageStreamV2 (factory : Nat → CallResult) :
    Except String (List GChunk) × Nat :=
  runV2From factory 0

/-! ## Streaming source aggregation

`src/services/geminiService.ts` lines 92–114 (the `seenUris` set and the
per-chunk `sources` array) composed with the consumption loop of
`handleSend` in `src/App.tsx` (lines 141–145: appending `chunk.sources`
to the accumulated source list whenever it is present). -/

/-- The body of `for (const gChunk of groundingMetadata.groundingChunks)`:
a reference with a (truthy) unseen URI is added to `seenUris` and pushed
onto the chunk's `sources` with `title || "Scholarly Archive Link"`. -/
def processRefs (seen : List String) : List WebRef → List String × List Source
  | [] => (seen, [])
  | r :: rs =>
    match r.uri with
    | none => processRefs seen rs
    | some u =>
      if u ∈ seen then processRefs seen rs
      else
        let p := processRefs (u :: seen) rs
        (p.1, { title := r.title.getD "Scholarly Archive Link", uri := u } :: p.2)

/-- Truthiness of `chunk.text` in `if (text || sources.length > 0)`. -/
def textPresent : Option String → Bool
  | none => false
  | some s => !s.isEmpty

/-- The `for await (const chunk of responseStream)` loop of
`sendMessageStreamV1`/`V2`: `seenUris` persists across chunks; a chunk
is yielded only when it carries text or new sources, and its `sources`
field is `undefined` when the chunk found no new source. -/
def serviceStream (seen : List String) : List GChunk → List StreamOutput
  | [] => []
  | c :: cs =>
    let p := processRefs seen c.refs
    let rest := serviceStream p.1 cs
    if textPresent c.text || !p.2.isEmpty then
      { text := c.text, sources := if p.2.isEmpty then none else some p.2 } :: rest
    else rest

/-- The source accumulation of `handleSend` in `src/App.tsx`:
`if (chunk.sources) sources = [...sources, ...chunk.sources]`. -/
def appSources (outs : List StreamOutput) : List Source :=
  outs.foldl
    (fun acc o => match o.sources with
      | some s => acc ++ s
      | none => acc)
    []

/-- The source list held by the assistant message after the whole
streaming turn. -/
def aggregatedSources (chunks : List GChunk) : List Source :=
  appSources (serviceStream [] chunks)

/-- All URIs carried by the grounding references of a chunk sequence, in
stream order (absent URIs contribute nothing). -/
def allUris (chunks : List GChunk) : List String :=
  (chunks.map (fun c => c.refs.filterMap (fun r => r.uri))).flatten

/-- Spec-side definition (from §3 invariant 2 and §8 property 1 of the
spec): first-seen deduplication of a URI list against an already-seen
set, returning the grown seen set and the retained URIs in first-seen
order.  `sourceFirstSeen` below is the `seen = ∅` instance the
aggregator is compared against. -/
def fsPair (seen : List String) : List String → List String × List String
  | [] => (seen, [])
  | u :: us =>
    if u ∈ seen then fsPair seen us
    else
      let p := fsPair (u :: seen) us
      (p.1, u :: p.2)

/-- Spec-side: the distinct URIs of a list, each at its first
occurrence, in first-seen order. -/
def sourceFirstSeen (us : List String) : List String :=
  (fsPair [] us).2

/-! ## Content accumulation (`handleSend` in `src/App.tsx`) -/

/-- One step of the consumption loop:
`if (chunk.text) fullContent += chunk.text` — a falsy (absent or empty)
delta leaves the content untouched. -/
def appendChunk (acc : String) (t : Option String) : String :=
  match t with
  | some s => if s.isEmpty then acc else acc ++ s
  | none => acc

/-- The assistant message content rendered after the first `i` chunks of
a streaming turn (the snapshot written by `setMessages` in the loop);
`i = texts.length` is the final content. -/
def contentAfter (texts : List (Option String)) (i : Nat) : String :=
  (texts.take i).foldl appendChunk ""

/-! ## Answer / verbatim-record convention (`splitContent` in
`src/unnamed/part_000`, lines 31–38) -/

/-- The character class of `replace(/^[:\s-]+/, '')`. -/
def isColonDashWs (c : Char) : Bool :=
  c = ':' || c = '-' || isJsWs c

/-- `parts[1].replace(/^[:\s-]+/, '')`: strip the leading run of colons,
dashes and whitespace. -/
def stripLeadColonDashWs (s : String) : String :=
  String.mk (s.data.dropWhile isColonDashWs)

/-- `splitContent` from the `ChatMessage` component
(`src/unnamed/part_000` lines 31–38): split the message content on the
literal marker; part 0 is the answer, part 1 (leading colon/dash/space
stripped) is the verbatim block; without the marker there is no
verbatim block. -/
def splitContent (content : String) : String × Option String :=
  let kw := "OFFICIAL VERBATIM RECORD"
  if containsSub kw.data content.data then
    let parts := splitOnL kw.data content.data
    (String.mk (parts.getD 0 []),
     some (stripLeadColonDashWs (String.mk (parts.getD 1 []))))
  else (content, none)

/-- Modelled from the spec: the repository contains no Fatwa-ID
extraction code; §6 of the spec says the verbatim block contains
"a Fatwa ID: line" from which the ID is read.  The first line of the
block that starts with the literal prefix yields the remainder of that
line. -/
def extractFatwaId (verbatim : String) : Option String :=
  (splitOnL "\n".data verbatim.data).findSome?
    (fun line =>
      if "Fatwa ID: ".data.isPrefixOf line then
        some (String.mk (line.drop 10))
      else none)

/-! ## Sentence segmentation (`handlePlay` in `src/unnamed/part_000`,
lines 65–71) -/

/-- The delimiter class of `answer.split(/([.!?\n]|[۔؟ء])/g)`:
Latin sentence punctuation, newline, Arabic full stop U+06D4, Arabic
question mark U+061F, and U+0621. -/
def isDelim (c : Char) : Bool :=
  c = '.' || c = '!' || c = '?' || c = '\n' ||
  c = '۔' || c = '؟' || c = 'ء'

/-- The split-with-capture-group followed by the
`reduce((acc, curr, idx) => ...)` of `handlePlay`: every piece is a
maximal delimiter-free run with its terminating delimiter attached,
plus the trailing delimiter-free rest (possibly empty). -/
def splitKeep (acc : List Char) : List Char → List (List Char)
  | [] => [acc.reverse]
  | c :: cs =>
    if isDelim c then (acc.reverse ++ [c]) :: splitKeep [] cs
    else splitKeep (c :: acc) cs

/-- The full segmenter of `handlePlay`: split, then
`.filter(s => s.trim().length > 2)`. -/
def segmentText (t : String) : List String :=
  ((splitKeep [] t.data).filter (fun s => 2 < (jsTrim s).length)).map
    (fun s => String.mk s)

/-! ## Audio playback scheduling (`handlePlay` in `src/unnamed/part_000`,
lines 73–96) and `stopAudio` (lines 42–49) -/

/-- One decoded buffer arriving at the scheduler: `now` is
`ctx.currentTime` at the moment `source.start` is issued, `dur` is
`audioBuffer.duration`. -/
structure SchedEvent where
  now : ℚ
  dur : ℚ
deriving DecidableEq

/-- The scheduling loop: for each buffer,
`startTime = Math.max(nextStartTime, ctx.currentTime)`;
`source.start(startTime)`; `nextStartTime = startTime + duration`.
Returns the (start, end) interval of every scheduled buffer in order;
`nextStart` is initially `ctx.currentTime` at loop entry. -/
def scheduleFold (nextStart : ℚ) : List SchedEvent → List (ℚ × ℚ)
  | [] => []
  | e :: es =>
    let start := max nextStart e.now
    (start, start + e.dur) :: scheduleFold (start + e.dur) es

/-- The playback-controller state touched by `stopAudio`: the
`activeSourcesRef` set (buffer ids), the `isPlaying` flag, and the
abort-signal flag. -/
structure ControllerState where
  activeSources : List Nat
  isPlaying : Bool
  aborted : Bool
deriving DecidableEq

/-- `source.stop()` on an `AudioBufferSourceNode`: throws when the node
is in the wrong state (e.g. never started), modelled by a per-buffer
failure flag. -/
def sourceStopOp (alreadyInvalid : Bool) : Except String Unit :=
  if alreadyInvalid then Except.error "InvalidStateError" else Except.ok ()

/-- The guarded per-buffer halt of `stopAudio`:
a try block around `source.stop()` with an empty catch, hence total. -/
def tryStopSource (alreadyInvalid : Bool) : Unit :=
  match sourceStopOp alreadyInvalid with
  | Except.ok _ => ()
  | Except.error _ => ()

/-- `stopAudio` from `src/unnamed/part_000` (lines 42–49): abort the
controller, best-effort-stop every active source, clear the active set,
and drop the playing flag.  `invalid` tells which buffers would throw
from `stop()`. -/
def stopAudio (invalid : Nat → Bool) (s : ControllerState) : ControllerState :=
  let _ := s.activeSources.map (fun id => tryStopSource (invalid id))
  { activeSources := [], isPlaying := false, aborted := true }

/-! ## Speech synthesis (`generateSpeech` in
`src/services/geminiService.ts` lines 127–145) and the synthesis part
of the `handlePlay` loop -/

/-- Outcome of one remote TTS call: a response whose payload may be
absent, or a thrown error. -/
inductive SynthResult where
  | response (payload : Option String)
  | failure (msg : String)

/-- `generateSpeech`: on success,
`response.candidates...inlineData?.data || ""`; every thrown error is
caught and turned into `""` — the empty-result sentinel. -/
def generateSpeech : SynthResult → String
  | .response d => d.getD ""
  | .failure _ => ""

/-- The per-segment synthesis half of the `handlePlay` loop (no user
abort): each segment is synthesised in order; `if (!base64) continue;`
skips the segment entirely — nothing is decoded or scheduled — and the
loop moves on.  Returns the segments that reach the scheduler. -/
def playLoop : List (String × SynthResult) → List String
  | [] => []
  | (seg, r) :: rest =>
    if (generateSpeech r).isEmpty then playLoop rest
    else seg :: playLoop rest

/-- Spec-side definition (from §3 invariant 3 and §8 property 2 of the
spec): re-joining a segment list with restored filler between and
around the segments — `ws` holds one filler string before each segment
plus one trailing filler. -/
def joinRestored (ws : List String) (ss : List String) : String :=
  match ws, ss with
  | w :: ws, s :: ss => w ++ s ++ joinRestored ws ss
  | w :: _, [] => w
  | [], _ => ""

/-! ## Theorems -/

/-- Two strings with the same character data are equal. -/
theorem string_data_ext {a b : String} (h : a.data = b.data) : a = b :=
  congrArg String.mk h

/-- Appending strings appends their character data. -/
theorem string_mk_append (a b : List Char) :
    String.mk a ++ String.mk b = String.mk (a ++ b) := rfl

/-- The empty string is a left identity for append. -/
theorem string_empty_append (s : String) : "" ++ s = s :=
  string_data_ext (by simp [String.data_append])

/-- The pieces produced by `splitKeep` concatenate back to the input
(with the pending accumulator in front): the splitter discards
nothing. -/
theorem splitKeep_flatten (l acc : List Char) :
    (splitKeep acc l).flatten = acc.reverse ++ l := by
  induction l generalizing acc with
  | nil => simp [splitKeep]
  | cons c cs ih =>
    by_cases hc : isDelim c
    · simp [splitKeep, hc, ih]
    · simp [splitKeep, hc, ih]

/-- Filler absorbed into the head filler slot factors out of
`joinRestored`. -/
theorem joinRestored_prepend (x w : String) (ws ss : List String) :
    joinRestored ((x ++ w) :: ws) ss = x ++ joinRestored (w :: ws) ss := by
  cases ss with
  | nil => simp [joinRestored]
  | cons s ss => simp [joinRestored, String.append_assoc]

/-- Core of the amended C3: whenever every piece the length filter drops
is pure whitespace, the kept pieces re-join to the full text with
whitespace-only filler restored between them. -/
theorem exists_restore (L : List (List Char))
    (h : ∀ s ∈ L, ¬ 2 < (jsTrim s).length → s.all isJsWs = true) :
    ∃ ws : List String,
      ws.length =
        ((L.filter (fun s => 2 < (jsTrim s).length)).map
          (fun s => String.mk s)).length + 1 ∧
      (∀ w ∈ ws, w.data.all isJsWs = true) ∧
      joinRestored ws
        ((L.filter (fun s => 2 < (jsTrim s).length)).map
          (fun s => String.mk s)) = String.mk L.flatten := by
  induction L with
  | nil =>
    refine ⟨[""], by simp, ?_, by simp [joinRestored]⟩
    intro w hw
    simp at hw
    subst hw
    rfl
  | cons a L ih =>
    obtain ⟨ws, hlen, hws, hj⟩ := ih (fun s hs hns => h s (by simp [hs]) hns)
    by_cases hp : 2 < (jsTrim a).length
    · refine ⟨"" :: ws, ?_, ?_, ?_⟩
      · simp [List.filter_cons, hp, hlen]
      · intro w hw
        rcases List.mem_cons.mp hw with hw | hw
        · subst hw; rfl
        · exact hws w hw
      · have hfilter :
            (a :: L).filter (fun s => 2 < (jsTrim s).length) =
              a :: L.filter (fun s => 2 < (jsTrim s).length) := by
          simp [List.filter_cons, hp]
        rw [hfilter, List.map_cons, List.flatten_cons]
        simp only [joinRestored]
        rw [hj, string_empty_append, string_mk_append]
    · have ha : a.all isJsWs = true := h a (by simp) hp
      obtain ⟨w0, ws', rfl⟩ : ∃ w0 ws', ws = w0 :: ws' := by
        cases ws with
        | nil => simp at hlen
        | cons w0 ws' => exact ⟨w0, ws', rfl⟩
      refine ⟨(String.mk a ++ w0) :: ws', ?_, ?_, ?_⟩
      · simpa [List.filter_cons, hp] using hlen
      · intro w hw
        rcases List.mem_cons.mp hw with hw | hw
        · subst hw
          have h0 : w0.data.all isJsWs = true := hws w0 (by simp)
          simp [String.data_append, List.all_append, ha, h0]
        · exact hws w (by simp [hw])
      · have hfilter :
            (a :: L).filter (fun s => 2 < (jsTrim s).length) =
              L.filter (fun s => 2 < (jsTrim s).length) := by
          simp [List.filter_cons, hp]
        rw [hfilter, joinRestored_prepend, hj, string_mk_append,
          List.flatten_cons]

/-- C8: the segmenter applied to "Hello world. How are you? میں ٹھیک ہوں۔"
yields exactly 3 segments, ending respectively in '.', '?', and the
Arabic full stop U+06D4, and retains no segment of trimmed
length ≤ 2. -/
theorem segmentText_example_three :
    segmentText "Hello world. How are you? میں ٹھیک ہوں۔" =
      ["Hello world.", " How are you?", " میں ٹھیک ہوں۔"] ∧
    (segmentText "Hello world. How are you? میں ٹھیک ہوں۔").length = 3 ∧
    (segmentText "Hello world. How are you? میں ٹھیک ہوں۔").map
      (fun s => s.data.getLast?) = [some '.', some '?', some '۔'] ∧
    ∀ s ∈ segmentText "Hello world. How are you? میں ٹھیک ہوں۔",
      ¬ (jsTrim s.data).length ≤ 2 := by
  decide

/-- C5: streaming the three chunks accumulates to a final content whose
parsed answer is "Salah requires wudu and ", whose parsed verbatim
block (after stripping the leading colon/whitespace) is
"Darul Ifta\nFatwa ID: 123\nExact text.", and whose Fatwa ID
extracts as "123". -/
theorem end_to_end_verbatim_example :
    contentAfter [some "Salah requires ", some "wudu and ",
      some "OFFICIAL VERBATIM RECORD: Darul Ifta\nFatwa ID: 123\nExact text."] 3 =
      "Salah requires wudu and OFFICIAL VERBATIM RECORD: Darul Ifta\nFatwa ID: 123\nExact text." ∧
    splitContent
      (contentAfter [some "Salah requires ", some "wudu and ",
        some "OFFICIAL VERBATIM RECORD: Darul Ifta\nFatwa ID: 123\nExact text."] 3) =
      ("Salah requires wudu and ", some "Darul Ifta\nFatwa ID: 123\nExact text.") ∧
    Option.bind
      (splitContent
        (contentAfter [some "Salah requires ", some "wudu and ",
          some "OFFICIAL VERBATIM RECORD: Darul Ifta\nFatwa ID: 123\nExact text."] 3)).2
      extractFatwaId = some "123" := by
  decide

/-- C9: `stopAudio` invoked with zero active buffers is total (every
per-buffer halt is wrapped in a catch that discards the failure),
leaves the active set empty, and leaves the controller not playing
(Idle). -/
theorem stopAudio_no_active (invalid : Nat → Bool) (p a : Bool) :
    stopAudio invalid ⟨[], p, a⟩ =
      { activeSources := [], isPlaying := false, aborted := true } ∧
    (stopAudio invalid ⟨[], p, a⟩).activeSources = [] ∧
    (stopAudio invalid ⟨[], p, a⟩).isPlaying = false ∧
    ∀ b, tryStopSource b = () := by
  refine ⟨rfl, rfl, rfl, fun b => rfl⟩

/-- C7: a failed synthesis call yields the empty-result sentinel instead
of an exception, and the playback loop schedules nothing for that
segment while still processing every remaining segment — one failure
never aborts the session. -/
theorem synth_failure_skipped (pre post : List (String × SynthResult))
    (seg msg : String) :
    generateSpeech (SynthResult.failure msg) = "" ∧
    playLoop (pre ++ (seg, SynthResult.failure msg) :: post) =
      playLoop pre ++ playLoop post := by
  refine ⟨rfl, ?_⟩
  induction pre with
  | nil => simp [playLoop, generateSpeech, String.isEmpty_iff]
  | cons hd tl ih =>
    obtain ⟨s, r⟩ := hd
    by_cases hE : (generateSpeech r).isEmpty
    · simpa [playLoop, hE] using ih
    · simpa [playLoop, hE] using ih

/-- C10: on an error carrying both a quota marker and an auth marker,
the catch clause of `sendMessageStream` surfaces QUOTA_EXHAUSTED, not
INVALID_KEY, because the quota test runs first. -/
theorem quota_precedes_auth (e : String)
    (hq : isQuotaError e = true) (hk : isKeyError e = true) :
    classifyCatch e = "QUOTA_EXHAUSTED" ∧
    classifyCatch e ≠ "INVALID_KEY" ∧
    sendMessageStreamV1 (CallResult.err e) =
      (Except.error "QUOTA_EXHAUSTED", 1) := by
  refine ⟨?_, ?_, ?_⟩ <;> simp [classifyCatch, hq, sendMessageStreamV1]

/-- Witness for C10 at the concrete error "429 unauthorized", which
carries both a quota marker and an auth marker. -/
theorem quota_precedes_auth_witness :
    isQuotaError "429 unauthorized" = true ∧
    isKeyError "429 unauthorized" = true ∧
    classifyCatch "429 unauthorized" = "QUOTA_EXHAUSTED" :=
  ⟨by decide, by decide,
    (quota_precedes_auth "429 unauthorized" (by decide) (by decide)).1⟩

/-- C2 counterexample: in `src/services/geminiService.ts` a
quota-classified failure is surfaced as QUOTA_EXHAUSTED after a single
remote attempt — zero extra attempts — although the file configures
`maxRetries = 1` (the binding is dead). -/
theorem quota_zero_retries_v1 :
    isQuotaError "429 RESOURCE_EXHAUSTED" = true ∧
    sendMessageStreamV1 (CallResult.err "429 RESOURCE_EXHAUSTED") =
      (Except.error "QUOTA_EXHAUSTED", 1) ∧
    maxRetriesV1 = 1 ∧
    (sendMessageStreamV1 (CallResult.err "429 RESOURCE_EXHAUSTED")).2 ≠
      maxRetriesV1 + 1 := by
  have hq : isQuotaError "429 RESOURCE_EXHAUSTED" = true := by decide
  have h1 : sendMessageStreamV1 (CallResult.err "429 RESOURCE_EXHAUSTED") =
      (Except.error "QUOTA_EXHAUSTED", 1) := by
    simp [sendMessageStreamV1, classifyCatch, hq]
  refine ⟨hq, h1, rfl, ?_⟩
  rw [h1]
  decide

/-- C2 (amended): the `src/unnamed/part_001` executor retries a
persistently quota-classified failure exactly `maxRetriesV2 = 2` extra
attempts (three remote calls) and then surfaces the still
quota-classified error; the `src/services/geminiService.ts` executor
performs no retry at all: a quota-classified error surfaces as
QUOTA_EXHAUSTED and an auth-classified error as INVALID_KEY, each after
exactly one attempt. -/
theorem retry_and_classification (e q a : String)
    (he : isQuotaErrorV2 e = true)
    (hq : isQuotaError q = true)
    (ha1 : isQuotaError a = false) (ha2 : isKeyError a = true) :
    sendMessageStreamV2 (fun _ => CallResult.err e) =
      (Except.error e, maxRetriesV2 + 1) ∧
    isQuotaErrorV2 e = true ∧
    sendMessageStreamV1 (CallResult.err q) =
      (Except.error "QUOTA_EXHAUSTED", 1) ∧
    sendMessageStreamV1 (CallResult.err a) =
      (Except.error "INVALID_KEY", 1) := by
  refine ⟨?_, he, ?_, ?_⟩
  · unfold sendMessageStreamV2
    rw [runV2From]; simp [he, maxRetriesV2]
    rw [runV2From]; simp [he, maxRetriesV2]
    rw [runV2From]; simp [he, maxRetriesV2]
  · simp [sendMessageStreamV1, classifyCatch, hq]
  · simp [sendMessageStreamV1, classifyCatch, ha1, ha2]

/-- C3 counterexample: on "A? Yes it is." the length filter of the
segmenter drops the non-whitespace piece "A?" (trimmed length 2), so
no re-joining of the output — even with arbitrary whitespace
restored — reproduces the original text: the letter 'A' occurs in the
text but in no segment. -/
theorem segment_roundtrip_counterexample :
    segmentText "A? Yes it is." = [" Yes it is."] ∧
    String.join (segmentText "A? Yes it is.") ≠ "A? Yes it is." ∧
    (∀ s ∈ segmentText "A? Yes it is.", 'A' ∉ s.data) ∧
    'A' ∈ "A? Yes it is.".data := by
  decide

/-- C3 (amended): for every finished answer text in which each piece the
≤ 2-trimmed-length filter drops is pure whitespace, re-joining the
segmenter's output with the stripped whitespace restored between
segments reproduces the original text exactly. -/
theorem segmentText_join_restored (t : String)
    (h : ∀ s ∈ splitKeep [] t.data,
      (jsTrim s).length ≤ 2 → s.all isJsWs = true) :
    ∃ ws : List String,
      ws.length = (segmentText t).length + 1 ∧
      (∀ w ∈ ws, w.data.all isJsWs = true) ∧
      joinRestored ws (segmentText t) = t := by
  have h' : ∀ s ∈ splitKeep [] t.data,
      ¬ 2 < (jsTrim s).length → s.all isJsWs = true :=
    fun s hs hn => h s hs (by omega)
  obtain ⟨ws, h1, h2, h3⟩ := exists_restore (splitKeep [] t.data) h'
  have hflat : String.mk (splitKeep [] t.data).flatten = t := by
    rw [splitKeep_flatten]
    rfl
  refine ⟨ws, ?_, h2, ?_⟩
  · simpa [segmentText] using h1
  · rw [segmentText]
    rw [hflat] at h3
    exact h3

/-- Witness for the amended C3 at "Hello there. Bye now.", where the only
dropped piece is the empty trailing one. -/
theorem segmentText_join_restored_witness :
    (∀ s ∈ splitKeep [] "Hello there. Bye now.".data,
      (jsTrim s).length ≤ 2 → s.all isJsWs = true) ∧
    ∃ ws : List String,
      ws.length = (segmentText "Hello there. Bye now.").length + 1 ∧
      (∀ w ∈ ws, w.data.all isJsWs = true) ∧
      joinRestored ws (segmentText "Hello there. Bye now.") =
        "Hello there. Bye now." :=
  ⟨by decide, segmentText_join_restored "Hello there. Bye now." (by decide)⟩

/-- Content accumulated by `appendChunk` from any starting string is that
string followed by some suffix. -/
theorem foldl_appendChunk_prefix (l : List (Option String)) (s : String) :
    ∃ t, l.foldl appendChunk s = s ++ t := by
  induction l generalizing s with
  | nil => exact ⟨"", (String.append_empty s).symm⟩
  | cons a l ih =>
    cases a with
    | none => simpa [appendChunk] using ih s
    | some str =>
      by_cases hstr : str.isEmpty
      · simpa [appendChunk, hstr] using ih s
      · obtain ⟨t, ht⟩ := ih (s ++ str)
        refine ⟨str ++ t, ?_⟩
        have hstep : appendChunk s (some str) = s ++ str := by
          simp [appendChunk, hstr]
        rw [List.foldl_cons, hstep, ht, String.append_assoc]

/-- C6: during one streaming turn the rendered content only grows — the
snapshot after `i` chunks is a prefix of the snapshot after any
`j ≥ i` chunks, and in particular of the final content. -/
theorem content_prefix_monotone (texts : List (Option String)) (i j : Nat)
    (hij : i ≤ j) :
    ∃ s, contentAfter texts j = contentAfter texts i ++ s := by
  obtain ⟨k, rfl⟩ : ∃ k, j = i + k := ⟨j - i, by omega⟩
  unfold contentAfter
  rw [List.take_add, List.foldl_append]
  exact foldl_appendChunk_prefix _ _

/-- Witness for C6: snapshots 1 and 3 of a concrete three-chunk turn. -/
theorem content_prefix_monotone_witness :
    (1 : Nat) ≤ 3 ∧
    ∃ s, contentAfter [some "Salah ", none, some "requires wudu."] 3 =
      contentAfter [some "Salah ", none, some "requires wudu."] 1 ++ s :=
  ⟨by decide,
    content_prefix_monotone [some "Salah ", none, some "requires wudu."] 1 3
      (by decide)⟩

/-- Witness for the amended C2 at concrete errors: "429" (quota), "quota
exceeded" (quota), "401 unauthorized" (auth, not quota). -/
theorem retry_and_classification_witness :
    isQuotaErrorV2 "429" = true ∧
    isQuotaError "quota exceeded" = true ∧
    isQuotaError "401 unauthorized" = false ∧
    isKeyError "401 unauthorized" = true ∧
    sendMessageStreamV2 (fun _ => CallResult.err "429") =
      (Except.error "429", maxRetriesV2 + 1) :=
  ⟨by decide, by decide, by decide, by decide,
    (retry_and_classification "429" "quota exceeded" "401 unauthorized"
      (by decide) (by decide) (by decide) (by decide)).1⟩

/-- The scheduler emits one interval per arriving buffer. -/
theorem scheduleFold_length (t0 : ℚ) (evs : List SchedEvent) :
    (scheduleFold t0 evs).length = evs.length := by
  induction evs generalizing t0 with
  | nil => rfl
  | cons e es ih => simp [scheduleFold, ih]

/-- The first scheduled interval starts at `max` of the initial cursor
and the clock, and ends one duration later. -/
theorem scheduleFold_getD_zero (t0 : ℚ) (evs : List SchedEvent)
    (h : 0 < evs.length) :
    (scheduleFold t0 evs).getD 0 (0, 0) =
      (max t0 (evs.getD 0 ⟨0, 0⟩).now,
       max t0 (evs.getD 0 ⟨0, 0⟩).now + (evs.getD 0 ⟨0, 0⟩).dur) := by
  cases evs with
  | nil => simp at h
  | cons e es => simp [scheduleFold]

/-- Step equation of the scheduling loop: interval `i+1` starts at the
`max` of interval `i`'s end and the clock at its scheduling moment, and
ends one duration later. -/
theorem scheduleFold_getD_succ (evs : List SchedEvent) (t0 : ℚ) (i : Nat)
    (h : i + 1 < evs.length) :
    (scheduleFold t0 evs).getD (i + 1) (0, 0) =
      (max ((scheduleFold t0 evs).getD i (0, 0)).2
         (evs.getD (i + 1) ⟨0, 0⟩).now,
       max ((scheduleFold t0 evs).getD i (0, 0)).2
         (evs.getD (i + 1) ⟨0, 0⟩).now + (evs.getD (i + 1) ⟨0, 0⟩).dur) := by
  induction evs generalizing t0 i with
  | nil => simp at h
  | cons e es ih =>
    cases i with
    | zero =>
      cases es with
      | nil => simp at h
      | cons e2 es2 => simp [scheduleFold]
    | succ k =>
      have hk : k + 1 < es.length := by simpa using h
      simpa [scheduleFold] using ih (max t0 e.now + e.dur) k hk

/-- C4: in one playback session every buffer is scheduled at
`max(nextFreeTime, now)` and the cursor advances by its duration, so
each interval starts no earlier than the previous interval's end and no
earlier than the clock at its scheduling moment, and a buffer whose
clock reading does not exceed the previous end plays back-to-back with
zero gap and zero overlap. -/
theorem schedule_never_past (t0 : ℚ) (evs : List SchedEvent) (i : Nat)
    (h : i + 1 < (scheduleFold t0 evs).length) :
    ((scheduleFold t0 evs).getD (i + 1) (0, 0)).1 =
      max ((scheduleFold t0 evs).getD i (0, 0)).2
        (evs.getD (i + 1) ⟨0, 0⟩).now ∧
    ((scheduleFold t0 evs).getD i (0, 0)).2 ≤
      ((scheduleFold t0 evs).getD (i + 1) (0, 0)).1 ∧
    (evs.getD (i + 1) ⟨0, 0⟩).now ≤
      ((scheduleFold t0 evs).getD (i + 1) (0, 0)).1 ∧
    ((scheduleFold t0 evs).getD (i + 1) (0, 0)).2 =
      ((scheduleFold t0 evs).getD (i + 1) (0, 0)).1 +
        (evs.getD (i + 1) ⟨0, 0⟩).dur ∧
    ((evs.getD (i + 1) ⟨0, 0⟩).now ≤ ((scheduleFold t0 evs).getD i (0, 0)).2 →
      ((scheduleFold t0 evs).getD (i + 1) (0, 0)).1 =
        ((scheduleFold t0 evs).getD i (0, 0)).2) := by
  rw [scheduleFold_length] at h
  have hs := scheduleFold_getD_succ evs t0 i h
  rw [hs]
  refine ⟨rfl, le_max_left _ _, le_max_right _ _, rfl, fun hle => ?_⟩
  exact max_eq_left hle

/-- Witness for C4, instantiating the spec's example: three buffers of
durations 1, 1/2, 2 all arriving early are scheduled back-to-back at
t0, t0+1, t0+3/2; when the third instead arrives at t0+9/5, it starts
at t0+9/5 — never earlier. -/
theorem schedule_never_past_witness :
    scheduleFold 0 [⟨0, 1⟩, ⟨0, 1/2⟩, ⟨0, 2⟩] =
      [(0, 1), (1, 3/2), (3/2, 7/2)] ∧
    scheduleFold 0 [⟨0, 1⟩, ⟨0, 1/2⟩, ⟨9/5, 2⟩] =
      [(0, 1), (1, 3/2), (9/5, 19/5)] ∧
    1 + 1 < (scheduleFold 0 [⟨0, 1⟩, ⟨0, 1/2⟩, ⟨0, 2⟩]).length ∧
    (((scheduleFold 0 [⟨0, 1⟩, ⟨0, 1/2⟩, ⟨0, 2⟩]).getD 1 (0, 0)).2 ≤
      ((scheduleFold 0 [⟨0, 1⟩, ⟨0, 1/2⟩, ⟨0, 2⟩]).getD 2 (0, 0)).1) :=
  ⟨by norm_num [scheduleFold, max_def], by norm_num [scheduleFold, max_def],
    by rw [scheduleFold_length]; norm_num,
    (schedule_never_past 0 [⟨0, 1⟩, ⟨0, 1/2⟩, ⟨0, 2⟩] 1
      (by rw [scheduleFold_length]; norm_num)).2.1⟩

/-- `processRefs` refines `fsPair` on the chunk's present URIs: the seen
sets evolve identically and the emitted sources carry exactly the
`fsPair` output URIs, in order. -/
theorem processRefs_fsPair (refs : List WebRef) (seen : List String) :
    (processRefs seen refs).1 =
      (fsPair seen (refs.filterMap (fun r => r.uri))).1 ∧
    ((processRefs seen refs).2).map Source.uri =
      (fsPair seen (refs.filterMap (fun r => r.uri))).2 := by
  induction refs generalizing seen with
  | nil => exact ⟨rfl, rfl⟩
  | cons r rs ih =>
    cases hu : r.uri with
    | none => simpa [processRefs, List.filterMap_cons, hu] using ih seen
    | some u =>
      by_cases hmem : u ∈ seen
      · simpa [processRefs, fsPair, List.filterMap_cons, hu, hmem] using ih seen
      · have ihu := ih (u :: seen)
        simp [processRefs, fsPair, List.filterMap_cons, hu, hmem, ihu.1, ihu.2]

/-- `fsPair` over a concatenation threads its seen set through the first
part and emits the two parts' outputs in order. -/
theorem fsPair_append (us vs seen : List String) :
    fsPair seen (us ++ vs) =
      ((fsPair (fsPair seen us).1 vs).1,
       (fsPair seen us).2 ++ (fsPair (fsPair seen us).1 vs).2) := by
  induction us generalizing seen with
  | nil => simp [fsPair]
  | cons u us ih =>
    by_cases hmem : u ∈ seen
    · simpa [fsPair, hmem] using ih seen
    · simp [fsPair, hmem, ih (u :: seen)]

/-- `appSources` concatenates the source lists carried by the yielded
chunks (an absent list contributes nothing). -/
theorem appSources_eq_flatten (outs : List StreamOutput) :
    appSources outs =
      (outs.map (fun o => o.sources.getD [])).flatten := by
  suffices hgen : ∀ (outs : List StreamOutput) (acc : List Source),
      outs.foldl
        (fun acc o => match o.sources with
          | some s => acc ++ s
          | none => acc)
        acc = acc ++ (outs.map (fun o => o.sources.getD [])).flatten by
    simpa [appSources] using hgen outs []
  intro outs
  induction outs with
  | nil => simp
  | cons o os ih =>
    intro acc
    cases ho : o.sources with
    | none => simp [ho, ih]
    | some s => simp [ho, ih, List.append_assoc]

/-- The whole pipeline — per-chunk URI deduplication against `seenUris`
in the service generator, then source-list concatenation in
`handleSend` — produces exactly the `fsPair` first-seen deduplication
of all URIs of the turn. -/
theorem aggregate_eq_fsPair (chunks : List GChunk) (seen : List String) :
    (appSources (serviceStream seen chunks)).map Source.uri =
      (fsPair seen
        ((chunks.map (fun c => c.refs.filterMap (fun r => r.uri))).flatten)).2 := by
  induction chunks generalizing seen with
  | nil => simp [serviceStream, appSources, fsPair]
  | cons c cs ih =>
    have href := processRefs_fsPair c.refs seen
    rw [List.map_cons, List.flatten_cons, fsPair_append]
    by_cases hyield :
        (textPresent c.text || !(processRefs seen c.refs).2.isEmpty) = true
    · rw [serviceStream, if_pos hyield]
      rw [appSources_eq_flatten, List.map_cons, List.flatten_cons]
      rw [← appSources_eq_flatten]
      by_cases hempty : (processRefs seen c.refs).2.isEmpty = true
      · have h2 : (processRefs seen c.refs).2 = [] :=
          List.isEmpty_iff.mp hempty
        rw [List.map_append]
        rw [ih (processRefs seen c.refs).1, href.1]
        rw [← href.2, h2]
        simp [h2, hempty]
      · rw [List.map_append]
        rw [ih (processRefs seen c.refs).1, href.1]
        rw [← href.2]
        simp [hempty]
    · rw [serviceStream, if_neg hyield]
      have hempty : (processRefs seen c.refs).2.isEmpty = true := by
        rcases Bool.or_eq_false_iff.mp (Bool.eq_false_iff.mpr hyield) with ⟨h1, h2⟩
        simpa using h2
      have h2 : (processRefs seen c.refs).2 = [] :=
        List.isEmpty_iff.mp hempty
      rw [ih (processRefs seen c.refs).1, href.1]
      rw [← href.2, h2]
      simp

/-- Membership in the `fsPair` output: exactly the input URIs not
already seen. -/
theorem mem_fsPair (us : List String) (seen : List String) (x : String) :
    x ∈ (fsPair seen us).2 ↔ x ∈ us ∧ x ∉ seen := by
  induction us generalizing seen with
  | nil => simp [fsPair]
  | cons u us ih =>
    by_cases hmem : u ∈ seen
    · rw [fsPair, if_pos hmem, ih seen]
      constructor
      · rintro ⟨hx, hns⟩
        exact ⟨List.mem_cons_of_mem _ hx, hns⟩
      · rintro ⟨hx, hns⟩
        rcases List.mem_cons.mp hx with rfl | hx
        · exact absurd hmem hns
        · exact ⟨hx, hns⟩
    · rw [fsPair, if_neg hmem, List.mem_cons, ih (u :: seen)]
      constructor
      · rintro (rfl | ⟨hx, hns⟩)
        · exact ⟨List.mem_cons_self _ _, hmem⟩
        · exact ⟨List.mem_cons_of_mem _ hx,
            fun hs => hns (List.mem_cons_of_mem _ hs)⟩
      · rintro ⟨hx, hns⟩
        rcases List.mem_cons.mp hx with rfl | hx
        · exact Or.inl rfl
        · by_cases hxu : x = u
          · exact Or.inl hxu
          · refine Or.inr ⟨hx, fun hs => ?_⟩
            rcases List.mem_cons.mp hs with h1 | h2
            · exact hxu h1
            · exact hns h2

/-- The `fsPair` output has no duplicates. -/
theorem fsPair_nodup (us : List String) (seen : List String) :
    (fsPair seen us).2.Nodup := by
  induction us generalizing seen with
  | nil => simp [fsPair]
  | cons u us ih =>
    by_cases hmem : u ∈ seen
    · rw [fsPair, if_pos hmem]
      exact ih seen
    · rw [fsPair, if_neg hmem]
      refine List.nodup_cons.mpr ⟨?_, ih (u :: seen)⟩
      intro hu
      exact ((mem_fsPair us (u :: seen) u).mp hu).2 (List.mem_cons_self u _)

/-- C1: over a whole streaming turn the accumulated `sources` carry
exactly the distinct URIs of the turn's grounding references, one entry
per distinct URI, without duplicates, in first-seen order
(`sourceFirstSeen`), and their number is the number of distinct
URIs. -/
theorem aggregated_sources_spec (chunks : List GChunk) :
    (aggregatedSources chunks).map Source.uri =
      sourceFirstSeen (allUris chunks) ∧
    ((aggregatedSources chunks).map Source.uri).Nodup ∧
    (∀ u, u ∈ (aggregatedSources chunks).map Source.uri ↔
      u ∈ allUris chunks) ∧
    (aggregatedSources chunks).length = (allUris chunks).toFinset.card := by
  have hmain : (aggregatedSources chunks).map Source.uri =
      sourceFirstSeen (allUris chunks) := by
    rw [aggregatedSources, sourceFirstSeen, allUris]
    exact aggregate_eq_fsPair chunks []
  have hnd : (sourceFirstSeen (allUris chunks)).Nodup :=
    fsPair_nodup (allUris chunks) []
  have hmem : ∀ u, u ∈ sourceFirstSeen (allUris chunks) ↔
      u ∈ allUris chunks := by
    intro u
    rw [sourceFirstSeen, mem_fsPair]
    simp
  refine ⟨hmain, hmain ▸ hnd, fun u => by rw [hmain]; exact hmem u, ?_⟩
  have hlen : (aggregatedSources chunks).length =
      (sourceFirstSeen (allUris chunks)).length := by
    rw [← hmain, List.length_map]
  rw [hlen]
  have hfin : (sourceFirstSeen (allUris chunks)).toFinset =
      (allUris chunks).toFinset := by
    ext u
    simp only [List.mem_toFinset]
    exact hmem u
  rw [← List.toFinset_card_of_nodup hnd, hfin]

end DarulIfta
